import Mathlib

/-!
Shallow embedding of the credential rotation and rate-limit resilience layer of the
veo-studio repository: the credential pool (services/apiKeyManager.ts), the failure
classifier and the resilient call executor (hooks/useAudioGeneration.ts,
parseRateLimitError and generateSingleAudio), and the batch orchestrator
(handleGenerateAllAudio and retryAudioClip in the same hook).

Conventions: timestamps are natural numbers in milliseconds (Date.now()); fallible
code paths that would throw at runtime return Option or Except; the remote call is an
injected work function.
-/

set_option maxRecDepth 16384

/-- One credential record: the KeyStatus interface of services/apiKeyManager.ts
(fields key, availableAt, isBlocked, errorCount). -/
structure KeyStatus where
  key : String
  availableAt : Nat
  isBlocked : Bool
  errorCount : Nat
deriving DecidableEq

/-- The ApiKeyManager state: the keys array plus the currentIndex cursor. -/
structure Manager where
  keys : List KeyStatus
  currentIndex : Nat
deriving DecidableEq

/-- The ApiKeyManager constructor (apiKeyManager.ts lines 21 to 30). -/
def initManager (apiKeys : List String) : Manager :=
  ⟨apiKeys.map (fun k => ⟨k, 0, false, 0⟩), 0⟩

/-- The availability test used throughout apiKeyManager.ts:
not blocked and availableAt at or before now. -/
def keyOk (now : Nat) (k : KeyStatus) : Bool :=
  !k.isBlocked && decide (k.availableAt ≤ now)

/-- JS Array.prototype.find fused with the indexOf call on its result: the first
element satisfying the test, together with its index. The indexOf in the source uses
reference equality on the element that find just returned, so the pair is exactly the
first matching index and element. -/
def jsFindIdx {α : Type} (p : α → Bool) : List α → Option (Nat × α)
  | [] => none
  | x :: xs => if p x then some (0, x) else (jsFindIdx p xs).map (fun r => (r.1 + 1, r.2))

/-- JS Array.prototype.indexOf under structural equality. -/
def jsIndexOf {α : Type} [DecidableEq α] (x : α) : List α → Option Nat
  | [] => none
  | y :: ys => if y = x then some 0 else (jsIndexOf x ys).map (fun i => i + 1)

/-- The reduce call of getCurrentKey and getSecondsUntilNextAvailable: keeps the
earliest element with strictly smaller availableAt, hence the first element of
minimal availableAt. -/
def reduceSoonest (acc : KeyStatus) : List KeyStatus → KeyStatus
  | [] => acc
  | k :: ks => reduceSoonest (if k.availableAt < acc.availableAt then k else acc) ks

/-- getCurrentKey (apiKeyManager.ts lines 35 to 55). Returns the selected key together
with the manager after its currentIndex mutation. The value none models the TypeError
thrown by reduce on an empty array, reached exactly when the pool is empty or every
key is blocked. -/
def getCurrentKey (mgr : Manager) (now : Nat) : Option (String × Manager) :=
  match jsFindIdx (keyOk now) mgr.keys with
  | some (i, k) => some (k.key, { mgr with currentIndex := i })
  | none =>
    match mgr.keys.filter (fun k => !k.isBlocked) with
    | [] => none
    | k0 :: rest =>
      match jsIndexOf (reduceSoonest k0 rest) mgr.keys with
      | some i => some ((reduceSoonest k0 rest).key, { mgr with currentIndex := i })
      | none => none

/-- JS String.prototype.substring with arguments 0 and 20, as used by the identity
comparison of markRateLimited: the first 20 characters, or the whole string when it
is shorter. -/
def substring20 (s : String) : String := s.take 20

/-- The findIndex call of markRateLimited (apiKeyManager.ts line 64): first key whose
20-character prefix equals that of the supplied key string. -/
def findIdxByKeyString (keys : List KeyStatus) (keyString : String) : Option (Nat × KeyStatus) :=
  jsFindIdx (fun k => decide (substring20 k.key = substring20 keyString)) keys

/-- markRateLimited (apiKeyManager.ts lines 62 to 77), with both parameters as
declared. A missing match is a warning-only no-op; the function never throws. -/
def markRateLimited (mgr : Manager) (now : Nat) (keyString : String)
    (retryAfterSeconds : Nat) : Manager :=
  match findIdxByKeyString mgr.keys keyString with
  | none => mgr
  | some (i, k) =>
    { mgr with
      keys := mgr.keys.set i
        ⟨k.key, now + retryAfterSeconds * 1000, k.isBlocked, k.errorCount + 1⟩ }

/-- The cyclic for-loop of rotateToNextKey: the loop counter i runs while remaining
fuel is left (the source iterates i from 1 to keys.length). -/
def rotateScan (keys : List KeyStatus) (now start : Nat) : Nat → Nat → Option Nat
  | _, 0 => none
  | i, remaining + 1 =>
    match keys.get? ((start + i) % keys.length) with
    | some k =>
      if keyOk now k then some ((start + i) % keys.length)
      else rotateScan keys now start (i + 1) remaining
    | none => none

/-- rotateToNextKey (apiKeyManager.ts lines 82 to 102): scan forward cyclically from
the index after currentIndex; if a full cycle finds nothing usable, return the key at
currentIndex unchanged. The value none models the undefined-property crash when the
pool is empty or currentIndex is out of range. -/
def rotateToNextKey (mgr : Manager) (now : Nat) : Option (String × Manager) :=
  match rotateScan mgr.keys now mgr.currentIndex 1 mgr.keys.length with
  | some i =>
    match mgr.keys.get? i with
    | some k => some (k.key, { mgr with currentIndex := i })
    | none => none
  | none =>
    match mgr.keys.get? mgr.currentIndex with
    | some k => some (k.key, mgr)
    | none => none

/-- hasAvailableKey (apiKeyManager.ts lines 107 to 110). -/
def hasAvailableKey (mgr : Manager) (now : Nat) : Bool :=
  mgr.keys.any (keyOk now)

/-- Math.ceil of a division by 1000 on natural milliseconds. -/
def ceilDiv1000 (a : Nat) : Nat := (a + 999) / 1000

/-- getSecondsUntilNextAvailable (apiKeyManager.ts lines 115 to 127): 0 when no
non-blocked key has availableAt in the future, otherwise the ceiling in seconds of
the smallest remaining wait among non-blocked keys with availableAt after now. -/
def getSecondsUntilNextAvailable (mgr : Manager) (now : Nat) : Nat :=
  match mgr.keys.filter (fun k => !k.isBlocked && decide (now < k.availableAt)) with
  | [] => 0
  | k0 :: rest => ceilDiv1000 ((reduceSoonest k0 rest).availableAt - now)

/-- getTotalKeys (apiKeyManager.ts lines 132 to 134). -/
def getTotalKeys (mgr : Manager) : Nat := mgr.keys.length

/-- markKeyInvalid (apiKeyManager.ts lines 167 to 174): block the key at the given
index (defaulting to currentIndex) permanently; out-of-range indices are a no-op. -/
def markKeyInvalid (mgr : Manager) (keyIndex : Option Nat) : Manager :=
  match mgr.keys.get? (keyIndex.getD mgr.currentIndex) with
  | none => mgr
  | some k =>
    { mgr with
      keys := mgr.keys.set (keyIndex.getD mgr.currentIndex)
        ⟨k.key, k.availableAt, true, k.errorCount⟩ }

/-- resetErrorCounts (apiKeyManager.ts lines 179 to 184). -/
def resetErrorCounts (mgr : Manager) : Manager :=
  { mgr with keys := mgr.keys.map (fun k => ⟨k.key, k.availableAt, k.isBlocked, 0⟩) }

/-- One entry of the details array of a parsed Google RPC error payload; atType is
the field named at-type in the JSON. -/
structure RpcDetail where
  atType : String
  retryDelay : Option String
deriving DecidableEq

/-- The error object of a parsed JSON error payload (errorJson.error), with its
optional code, message and details fields. -/
structure RpcErrorBody where
  code : Option Int
  message : Option String
  details : Option (List RpcDetail)
deriving DecidableEq

/-- A value thrown by the remote call, as seen by parseRateLimitError: either not an
Error instance (desc is its String conversion), an Error whose message does not parse
as JSON, or an Error whose message parses to JSON carrying an optional error object
(raw is the full message text). -/
inductive RemoteErr where
  | nonError (desc : String)
  | plainMessage (msg : String)
  | rpc (err : Option RpcErrorBody) (raw : String)
deriving DecidableEq

/-- Errors flowing through generateSingleAudio: remote failures, runtime TypeErrors
(reduce of an empty array inside getCurrentKey; substring invoked on the number that
the executor passes to markRateLimited), and the final max-retries Error. -/
inductive JsErr where
  | remote (e : RemoteErr)
  | typeError (msg : String)
  | maxRetriesExceeded
deriving DecidableEq

/-- JS String.prototype.replace with a one-character pattern: drop the first
occurrence of the character s. -/
def removeFirstSChar : List Char → List Char
  | [] => []
  | c :: cs => if c = 's' then cs else c :: removeFirstSChar cs

/-- The replace call of parseRateLimitError on a retryDelay payload. -/
def jsReplaceS (s : String) : String := (removeFirstSChar s.toList).asString

/-- JS parseInt on the digit strings produced by retryDelay payloads; none models
NaN (no leading digits). -/
def jsParseInt (s : String) : Option Nat :=
  let ds := s.toList.takeWhile Char.isDigit
  if ds.isEmpty then none
  else some (ds.foldl (fun n c => n * 10 + (c.toNat - 48)) 0)

/-- The record returned by parseRateLimitError; retryAfterSeconds none models NaN. -/
structure ParsedRL where
  isRateLimit : Bool
  retryAfterSeconds : Option Nat
  errorMsg : String
deriving DecidableEq

/-- The at-type tag of a RetryInfo detail entry. -/
def retryInfoType : String := "type.googleapis.com/google.rpc.RetryInfo"

/-- The fallback message of parseRateLimitError: errorJson.error message if present
and non-empty (JS truthiness of the or-expression), else the raw error message. -/
def rpcFallbackMsg (errBody : Option RpcErrorBody) (raw : String) : String :=
  match errBody with
  | some b =>
    match b.message with
    | some m => if m = "" then raw else m
    | none => raw
  | none => raw

/-- parseRateLimitError (useAudioGeneration.ts lines 40 to 73): recognize a 429
payload carrying a RetryInfo retryDelay as a rate limit; everything else, including
malformed input, is a non-rate-limit classification with the best available text. -/
def parseRateLimitError (e : JsErr) : ParsedRL :=
  match e with
  | .typeError m => ⟨false, some 0, m⟩
  | .maxRetriesExceeded => ⟨false, some 0, "Max retries exceeded"⟩
  | .remote (.nonError d) => ⟨false, some 0, d⟩
  | .remote (.plainMessage m) => ⟨false, some 0, m⟩
  | .remote (.rpc errBody raw) =>
    match errBody with
    | some b =>
      if b.code = some 429 then
        match (b.details.getD []).find? (fun d => decide (d.atType = retryInfoType)) with
        | some d =>
          match d.retryDelay with
          | some rd =>
            if rd = "" then ⟨false, some 0, rpcFallbackMsg errBody raw⟩
            else ⟨true, jsParseInt (jsReplaceS rd), "Rate limit exceeded"⟩
          | none => ⟨false, some 0, rpcFallbackMsg errBody raw⟩
        | none => ⟨false, some 0, rpcFallbackMsg errBody raw⟩
      else ⟨false, some 0, rpcFallbackMsg errBody raw⟩
    | none => ⟨false, some 0, rpcFallbackMsg errBody raw⟩

/-- The produced artifact (an audio blob), modeled by an opaque identifier. -/
abbrev Blob := Nat

instance exceptDecEq {ε α : Type} [DecidableEq ε] [DecidableEq α] :
    DecidableEq (Except ε α) := fun a b =>
  match a, b with
  | .ok x, .ok y =>
    if h : x = y then isTrue (congrArg Except.ok h)
    else isFalse (fun hc => h (Except.ok.inj hc))
  | .error x, .error y =>
    if h : x = y then isTrue (congrArg Except.error h)
    else isFalse (fun hc => h (Except.error.inj hc))
  | .ok _, .error _ => isFalse (fun hc => Except.noConfusion hc)
  | .error _, .ok _ => isFalse (fun hc => Except.noConfusion hc)

/-- Trace of one executor run: the outcome, the number of work-function invocations,
the sleeps performed in order (milliseconds), and the final manager and clock. -/
structure ExecTrace where
  result : Except JsErr Blob
  attempts : Nat
  sleepsMs : List Nat
  mgr : Manager
  clock : Nat
deriving DecidableEq

/-- The call at useAudioGeneration.ts line 91: markRateLimited is invoked with the
single argument retryAfterSeconds, so the retry-seconds number arrives in the
keyString parameter and the declared retryAfterSeconds parameter is undefined. Under
JS runtime semantics the findIndex callback evaluates substring on that number and
throws a TypeError whenever the pool is non-empty; with an empty pool findIndex never
invokes the callback and the call is the warning-only no-op. -/
def markRateLimitedAsCalled (mgr : Manager) : Except JsErr Manager :=
  match mgr.keys with
  | [] => .ok mgr
  | _ :: _ => .error (.typeError "keyString.substring is not a function")

/-- Sleep duration in milliseconds of the all-keys-limited branch: Math.min of the
retry seconds and 10, converted to milliseconds; a NaN interval collapses to a
zero-delay timeout. -/
def waitMs (retryAfterSeconds : Option Nat) : Nat :=
  match retryAfterSeconds with
  | some s => (min s 10) * 1000
  | none => 0

/-- The retry loop of generateSingleAudio (useAudioGeneration.ts lines 82 to 113).
Fuel counts the remaining loop iterations, so the attempt index is maxRetries minus
fuel; the remote call is the injected work function (attempt index and key to blob or
thrown error) and takes no wall-clock time, while sleeps advance the clock. -/
def execLoop (work : Nat → String → Except RemoteErr Blob) (maxRetries : Nat) :
    Nat → Manager → Nat → Nat → List Nat → ExecTrace
  | 0, mgr, clock, attempts, sleeps =>
    ⟨.error .maxRetriesExceeded, attempts, sleeps, mgr, clock⟩
  | fuel + 1, mgr, clock, attempts, sleeps =>
    let attempt := maxRetries - fuel
    match getCurrentKey mgr clock with
    | none =>
      ⟨.error (.typeError "Reduce of empty array with no initial value"),
        attempts, sleeps, mgr, clock⟩
    | some (key, mgr1) =>
      match work attempt key with
      | .ok blob => ⟨.ok blob, attempts + 1, sleeps, mgr1, clock⟩
      | .error re =>
        let e := JsErr.remote re
        let parsed := parseRateLimitError e
        if parsed.isRateLimit = true then
          match markRateLimitedAsCalled mgr1 with
          | .error te => ⟨.error te, attempts + 1, sleeps, mgr1, clock⟩
          | .ok mgr2 =>
            if 1 < getTotalKeys mgr2 ∧ hasAvailableKey mgr2 clock = true then
              match rotateToNextKey mgr2 clock with
              | none =>
                ⟨.error (.typeError "Cannot read properties of undefined"),
                  attempts + 1, sleeps, mgr2, clock⟩
              | some (_, mgr3) =>
                execLoop work maxRetries fuel mgr3 (clock + 500) (attempts + 1)
                  (sleeps ++ [500])
            else if attempt < maxRetries then
              let w := waitMs parsed.retryAfterSeconds
              execLoop work maxRetries fuel mgr2 (clock + w) (attempts + 1)
                (sleeps ++ [w])
            else ⟨.error e, attempts + 1, sleeps, mgr2, clock⟩
        else ⟨.error e, attempts + 1, sleeps, mgr1, clock⟩

/-- generateSingleAudio (useAudioGeneration.ts lines 78 to 116): run the retry loop
for maxRetries plus one iterations. -/
def generateSingleAudioExec (work : Nat → String → Except RemoteErr Blob)
    (maxRetries : Nat) (mgr : Manager) (clock : Nat) : ExecTrace :=
  execLoop work maxRetries (maxRetries + 1) mgr clock 0 []

/-- The per-clip record (AudioData in useAudioGeneration.ts); the blob is its opaque
identifier and URL.createObjectURL is modeled as an uninterpreted tag of the blob. -/
structure AudioData where
  url : String
  blob : Blob
  error : Option String
  isLoading : Bool
  retryAfter : Option Nat
deriving DecidableEq

/-- Model of URL.createObjectURL. -/
def objectURL (b : Blob) : String := "blob:" ++ toString b

/-- The loading placeholder record written before an item runs. -/
def loadingClip : AudioData := ⟨"", 0, none, true, none⟩

/-- The record written for a successful item. -/
def succeededClip (b : Blob) : AudioData := ⟨objectURL b, b, none, false, none⟩

/-- The record written in the catch branches of handleGenerateAllAudio and
retryAudioClip: the parsed message plus an absolute retryAfter when the parsed retry
interval is positive. -/
def failedClip (e : JsErr) (now : Nat) : AudioData :=
  let p := parseRateLimitError e
  let retryAfter :=
    match p.retryAfterSeconds with
    | some s => if 0 < s then some (now + s * 1000) else none
    | none => none
  ⟨"", 0, some p.errorMsg, false, retryAfter⟩

/-- The record an item ends in, from the outcome of its work function. -/
def outcomeClip (r : Except JsErr Blob) (now : Nat) : AudioData :=
  match r with
  | .ok b => succeededClip b
  | .error e => failedClip e now

/-- JS String.prototype.trim, used only for the blank-item test of the orchestrator:
drop whitespace from both ends (structural model of the library trim). -/
def jsTrim (s : String) : String :=
  ((s.toList.dropWhile Char.isWhitespace).reverse.dropWhile Char.isWhitespace).reverse.asString

/-- The initial audioData array of handleGenerateAllAudio (useAudioGeneration.ts
lines 127 to 130): loading records for non-blank items, null for blank ones. -/
def initialAudioData (script : List String) : List (Option AudioData) :=
  script.map (fun t => if jsTrim t = "" then none else some loadingClip)

/-- The per-item loop of handleGenerateAllAudio (useAudioGeneration.ts lines 133 to
166); work i is the outcome of the executor for item i and now the idealized wall
clock of the run. -/
def runAllLoop (work : Nat → Except JsErr Blob) (now : Nat) :
    List String → Nat → List (Option AudioData) → List (Option AudioData)
  | [], _, st => st
  | t :: ts, i, st =>
    if jsTrim t = "" then runAllLoop work now ts (i + 1) st
    else runAllLoop work now ts (i + 1) (st.set i (some (outcomeClip (work i) now)))

/-- handleGenerateAllAudio (useAudioGeneration.ts lines 121 to 171): the final
audioData state of a batch run. -/
def handleGenerateAllAudioRun (script : List String) (work : Nat → Except JsErr Blob)
    (now : Nat) : List (Option AudioData) :=
  runAllLoop work now script 0 (initialAudioData script)

/-- retryAudioClip (useAudioGeneration.ts lines 176 to 216): the transient loading
write followed by the final write at the same index; out-of-range indices and blank
items leave the state untouched. -/
def retryAudioClip (script : List String) (st : List (Option AudioData)) (index : Nat)
    (work : Nat → Except JsErr Blob) (now : Nat) : List (Option AudioData) :=
  match script.get? index with
  | none => st
  | some t =>
    if jsTrim t = "" then st
    else ((st.set index (some loadingClip)).set index (some (outcomeClip (work index) now)))

/-! Concrete pools and failure payloads used by the claim instances below. -/

/-- A pool of two fresh distinct keys. -/
def poolTwoFresh : Manager :=
  ⟨[⟨"AKEY-aaaaaaaaaaaaaaaaaaaaaaaa", 0, false, 0⟩,
    ⟨"BKEY-bbbbbbbbbbbbbbbbbbbbbbbb", 0, false, 0⟩], 0⟩

/-- A 429 failure payload carrying a RetryInfo detail with a 30 second delay. -/
def rateLimit30 : RemoteErr :=
  .rpc (some ⟨some 429, some "Resource has been exhausted",
    some [⟨retryInfoType, some "30s"⟩]⟩) "raw429"

/-- A single-key pool. -/
def poolSingle : Manager := ⟨[⟨"SKEY-ssssssssssssssssssssssss", 0, false, 0⟩], 0⟩

/-- A 429 failure payload carrying a RetryInfo detail with a 1 second delay. -/
def rateLimit1 : RemoteErr :=
  .rpc (some ⟨some 429, some "Resource has been exhausted",
    some [⟨retryInfoType, some "1s"⟩]⟩) "raw429"

/-- A 403 permission-denied failure payload. -/
def authRejection : RemoteErr :=
  .rpc (some ⟨some 403, some "The caller does not have permission", none⟩) "raw403"

/-- A 3-key pool whose key 0 was just rate limited until t = 31000 while keys 1 and 2
are fresh. -/
def poolRotation : Manager :=
  ⟨[⟨"KEY0-zzzzzzzzzzzzzzzzzzzz", 31000, false, 1⟩,
    ⟨"KEY1-yyyyyyyyyyyyyyyyyyyy", 0, false, 0⟩,
    ⟨"KEY2-xxxxxxxxxxxxxxxxxxxx", 0, false, 0⟩], 0⟩

/-- A permanently blocked key A. -/
def keyA : KeyStatus := ⟨"AKEY-blocked-aaaaaaaaaaa", 0, true, 0⟩

/-- An available key B. -/
def keyB : KeyStatus := ⟨"BKEY-avail-bbbbbbbbbbbbb", 0, false, 0⟩

/-- An available key C. -/
def keyC : KeyStatus := ⟨"CKEY-avail-ccccccccccccc", 0, false, 0⟩

/-- The pool with keys A (blocked), B, C and the given current index. -/
def abcPool (i : Nat) : Manager := ⟨[keyA, keyB, keyC], i⟩

/-- A pool holding one long key, for the truncated-identity instance. -/
def poolLongKey : Manager := ⟨[⟨"LONGKEY-0123456789ab-tail-of-secret", 0, false, 0⟩], 0⟩

/-- Two distinct keys sharing their first 20 characters. -/
def dupKey1 : KeyStatus := ⟨"SHARED-PREFIX-0123456-first", 0, false, 0⟩

/-- The second key with the same 20-character prefix. -/
def dupKey2 : KeyStatus := ⟨"SHARED-PREFIX-0123456-second", 3, false, 5⟩

/-- The pool holding both prefix-sharing keys. -/
def poolDup : Manager := ⟨[dupKey1, dupKey2], 0⟩

/-- A pool with one immediately usable key and one key cooling down until t = 6000. -/
def poolMixed : Manager :=
  ⟨[⟨"AKEY-ready-aaaaaaaaaa", 0, false, 0⟩, ⟨"BKEY-cooling-bbbbbbbb", 6000, false, 0⟩], 0⟩

/-! Helper lemmas about the list primitives used by the embedding. -/

theorem listGet_set_same {α : Type} (l : List α) (i : Nat) (a : α) (h : i < l.length) :
    (l.set i a).get? i = some a := by
  induction l generalizing i with
  | nil => simp at h
  | cons x xs ih =>
    cases i with
    | zero => rfl
    | succ n => exact ih n (Nat.lt_of_succ_lt_succ h)

theorem listGet_set_other {α : Type} (l : List α) (i j : Nat) (a : α) (h : i ≠ j) :
    (l.set i a).get? j = l.get? j := by
  induction l generalizing i j with
  | nil => rfl
  | cons x xs ih =>
    cases i with
    | zero =>
      cases j with
      | zero => exact absurd rfl h
      | succ m => rfl
    | succ n =>
      cases j with
      | zero => rfl
      | succ m => exact ih n m (fun hh => h (by rw [hh]))

theorem listSet_get_self {α : Type} (l : List α) (i : Nat) (a : α) (h : l.get? i = some a) :
    l.set i a = l := by
  induction l generalizing i with
  | nil => rfl
  | cons x xs ih =>
    cases i with
    | zero =>
      obtain rfl : x = a := by simpa using h
      rfl
    | succ n =>
      show x :: xs.set n a = x :: xs
      rw [ih n h]

theorem listMap_set {α β : Type} (f : α → β) (l : List α) (i : Nat) (a : α) :
    (l.set i a).map f = (l.map f).set i (f a) := by
  induction l generalizing i with
  | nil => rfl
  | cons x xs ih =>
    cases i with
    | zero => rfl
    | succ n =>
      show f x :: (xs.set n a).map f = f x :: (xs.map f).set n (f a)
      rw [ih]

theorem jsFindIdx_none_iff {α : Type} (p : α → Bool) (l : List α) :
    jsFindIdx p l = none ↔ ∀ x ∈ l, p x = false := by
  induction l with
  | nil => simp [jsFindIdx]
  | cons x xs ih =>
    by_cases hx : p x
    · simp [jsFindIdx, hx]
    · simp only [jsFindIdx, if_neg hx, Option.map_eq_none', List.mem_cons]
      constructor
      · intro h y hy
        rcases hy with rfl | hy
        · exact Bool.eq_false_iff.mpr hx
        · exact (ih.mp h) y hy
      · intro h
        exact ih.mpr (fun y hy => h y (Or.inr hy))

theorem jsFindIdx_some_spec {α : Type} (p : α → Bool) (l : List α) (i : Nat) (x : α)
    (h : jsFindIdx p l = some (i, x)) :
    l.get? i = some x ∧ p x = true ∧
      ∀ j, j < i → ∀ y, l.get? j = some y → p y = false := by
  induction l generalizing i with
  | nil => simp [jsFindIdx] at h
  | cons a as ih =>
    by_cases ha : p a
    · simp only [jsFindIdx, if_pos ha, Option.some.injEq, Prod.mk.injEq] at h
      obtain ⟨rfl, rfl⟩ := h
      exact ⟨rfl, ha, fun j hj => absurd hj (Nat.not_lt_zero j)⟩
    · simp only [jsFindIdx, if_neg ha, Option.map_eq_some'] at h
      obtain ⟨⟨i', x'⟩, hfind, hpair⟩ := h
      cases hpair
      obtain ⟨hget, hp, hfirst⟩ := ih i' hfind
      refine ⟨hget, hp, ?_⟩
      intro j hj y hy
      cases j with
      | zero =>
        obtain rfl : a = y := by simpa using hy
        exact Bool.eq_false_iff.mpr ha
      | succ m => exact hfirst m (Nat.lt_of_succ_lt_succ hj) y hy

theorem jsFindIdx_first {α : Type} (p : α → Bool) (l : List α) (i : Nat) (x : α)
    (hx : l.get? i = some x) (hp : p x = true)
    (hfirst : ∀ j, j < i → ∀ y, l.get? j = some y → p y = false) :
    jsFindIdx p l = some (i, x) := by
  induction l generalizing i with
  | nil => simp at hx
  | cons a as ih =>
    cases i with
    | zero =>
      obtain rfl : a = x := by simpa using hx
      simp [jsFindIdx, hp]
    | succ n =>
      have ha : p a = false := hfirst 0 (Nat.succ_pos n) a rfl
      have hrec := ih n hx (fun j hj y hy => hfirst (j + 1) (Nat.succ_lt_succ hj) y hy)
      simp [jsFindIdx, ha, hrec]

theorem jsFindIdx_le_of_match {α : Type} (p : α → Bool) (l : List α) (i : Nat) (x : α)
    (hx : l.get? i = some x) (hp : p x = true) :
    ∃ f y, jsFindIdx p l = some (f, y) ∧ f ≤ i ∧ l.get? f = some y ∧ p y = true := by
  induction l generalizing i with
  | nil => simp at hx
  | cons a as ih =>
    by_cases ha : p a
    · exact ⟨0, a, by simp [jsFindIdx, ha], Nat.zero_le i, rfl, ha⟩
    · cases i with
      | zero =>
        obtain rfl : a = x := by simpa using hx
        exact absurd hp (by simpa using ha)
      | succ n =>
        obtain ⟨f, y, hfind, hle, hget, hpy⟩ := ih n hx
        exact ⟨f + 1, y, by simp [jsFindIdx, ha, hfind], Nat.succ_le_succ hle, hget, hpy⟩

theorem jsIndexOf_of_mem {α : Type} [DecidableEq α] (x : α) (l : List α) (h : x ∈ l) :
    ∃ i, jsIndexOf x l = some i := by
  induction l with
  | nil => simp at h
  | cons a as ih =>
    by_cases ha : a = x
    · exact ⟨0, by simp [jsIndexOf, ha]⟩
    · have hx : x ∈ as := by
        rcases List.mem_cons.mp h with rfl | hmem
        · exact absurd rfl ha
        · exact hmem
      obtain ⟨i, hi⟩ := ih hx
      exact ⟨i + 1, by simp [jsIndexOf, ha, hi]⟩

theorem reduceSoonest_mem (acc : KeyStatus) (l : List KeyStatus) :
    reduceSoonest acc l = acc ∨ reduceSoonest acc l ∈ l := by
  induction l generalizing acc with
  | nil => exact Or.inl rfl
  | cons k ks ih =>
    have hred : reduceSoonest acc (k :: ks) =
        reduceSoonest (if k.availableAt < acc.availableAt then k else acc) ks := rfl
    rcases ih (if k.availableAt < acc.availableAt then k else acc) with h | h
    · rw [hred, h]
      by_cases hk : k.availableAt < acc.availableAt
      · rw [if_pos hk]
        exact Or.inr (List.mem_cons_self k ks)
      · rw [if_neg hk]
        exact Or.inl rfl
    · rw [hred]
      exact Or.inr (List.mem_cons_of_mem k h)

theorem reduceSoonest_le (acc : KeyStatus) (l : List KeyStatus) :
    (reduceSoonest acc l).availableAt ≤ acc.availableAt ∧
      ∀ k ∈ l, (reduceSoonest acc l).availableAt ≤ k.availableAt := by
  induction l generalizing acc with
  | nil => exact ⟨Nat.le_refl _, fun k hk => absurd hk (List.not_mem_nil k)⟩
  | cons k ks ih =>
    have hred : reduceSoonest acc (k :: ks) =
        reduceSoonest (if k.availableAt < acc.availableAt then k else acc) ks := rfl
    rw [hred]
    obtain ⟨h1, h2⟩ := ih (if k.availableAt < acc.availableAt then k else acc)
    have hacc : (if k.availableAt < acc.availableAt then k else acc).availableAt ≤ acc.availableAt := by
      by_cases hk : k.availableAt < acc.availableAt
      · rw [if_pos hk]; exact Nat.le_of_lt hk
      · rw [if_neg hk]
    have hk' : (if k.availableAt < acc.availableAt then k else acc).availableAt ≤ k.availableAt := by
      by_cases hk : k.availableAt < acc.availableAt
      · rw [if_pos hk]
      · rw [if_neg hk]; exact Nat.le_of_not_lt hk
    refine ⟨Nat.le_trans h1 hacc, ?_⟩
    intro k' hk'mem
    rcases List.mem_cons.mp hk'mem with rfl | hmem
    · exact Nat.le_trans h1 hk'
    · exact h2 k' hmem


theorem getCurrentKey_keys_eq (mgr : Manager) (now : Nat) (s : String) (mgr' : Manager)
    (h : getCurrentKey mgr now = some (s, mgr')) : mgr'.keys = mgr.keys := by
  unfold getCurrentKey at h
  rcases hfind : jsFindIdx (keyOk now) mgr.keys with _ | ⟨i, k⟩
  · simp only [hfind] at h
    rcases hfilter : mgr.keys.filter (fun k => !k.isBlocked) with _ | ⟨k0, rest⟩
    · simp only [hfilter] at h
      exact Option.noConfusion h
    · simp only [hfilter] at h
      rcases hidx : jsIndexOf (reduceSoonest k0 rest) mgr.keys with _ | j
      · simp only [hidx] at h
        exact Option.noConfusion h
      · simp only [hidx, Option.some.injEq, Prod.mk.injEq] at h
        obtain ⟨rfl, rfl⟩ := h
        rfl
  · simp only [hfind, Option.some.injEq, Prod.mk.injEq] at h
    obtain ⟨rfl, rfl⟩ := h
    rfl

theorem rotateToNextKey_keys_eq (mgr : Manager) (now : Nat) (s : String) (mgr' : Manager)
    (h : rotateToNextKey mgr now = some (s, mgr')) : mgr'.keys = mgr.keys := by
  unfold rotateToNextKey at h
  rcases hscan : rotateScan mgr.keys now mgr.currentIndex 1 mgr.keys.length with _ | i
  · simp only [hscan] at h
    rcases hget : mgr.keys.get? mgr.currentIndex with _ | k
    · simp only [hget] at h
      exact Option.noConfusion h
    · simp only [hget, Option.some.injEq, Prod.mk.injEq] at h
      obtain ⟨rfl, rfl⟩ := h
      rfl
  · simp only [hscan] at h
    rcases hget : mgr.keys.get? i with _ | k
    · simp only [hget] at h
      exact Option.noConfusion h
    · simp only [hget, Option.some.injEq, Prod.mk.injEq] at h
      obtain ⟨rfl, rfl⟩ := h
      rfl

theorem getCurrentKey_none_iff (mgr : Manager) (now : Nat) :
    getCurrentKey mgr now = none ↔
      (mgr.keys = [] ∨ ∀ k ∈ mgr.keys, k.isBlocked = true) := by
  unfold getCurrentKey
  rcases hfind : jsFindIdx (keyOk now) mgr.keys with _ | ⟨i, k⟩
  · simp only [hfind]
    rcases hfilter : mgr.keys.filter (fun k => !k.isBlocked) with _ | ⟨k0, rest⟩
    · simp only [hfilter]
      constructor
      · intro _
        refine Or.inr (fun k hk => ?_)
        have := (List.filter_eq_nil_iff.mp hfilter) k hk
        simpa using this
      · intro _
        trivial
    · simp only [hfilter]
      have hk0 : k0 ∈ mgr.keys.filter (fun k => !k.isBlocked) := by
        rw [hfilter]
        exact List.mem_cons_self k0 rest
      have hk0keys : k0 ∈ mgr.keys := List.mem_of_mem_filter hk0
      have hk0nb : k0.isBlocked = false := by
        have := (List.mem_filter.mp hk0).2
        simpa using this
      have hsoonmem : reduceSoonest k0 rest ∈ mgr.keys.filter (fun k => !k.isBlocked) := by
        rw [hfilter]
        rcases reduceSoonest_mem k0 rest with hh | hh
        · rw [hh]
          exact List.mem_cons_self k0 rest
        · exact List.mem_cons_of_mem k0 hh
      obtain ⟨idx, hidx⟩ := jsIndexOf_of_mem _ mgr.keys (List.mem_of_mem_filter hsoonmem)
      simp only [hidx]
      constructor
      · intro hcontra
        exact Option.noConfusion hcontra
      · intro hcontra
        rcases hcontra with hnil | hall
        · rw [hnil] at hk0keys
          exact absurd hk0keys (List.not_mem_nil k0)
        · rw [hall k0 hk0keys] at hk0nb
          exact Bool.noConfusion hk0nb
  · simp only [hfind]
    have hspec := jsFindIdx_some_spec _ _ _ _ hfind
    have hkmem : k ∈ mgr.keys := List.get?_mem hspec.1
    have hknb : k.isBlocked = false := by
      have h2 := hspec.2.1
      unfold keyOk at h2
      rcases (Bool.and_eq_true _ _).mp h2 with ⟨h3, _⟩
      simpa using h3
    constructor
    · intro hcontra
      exact Option.noConfusion hcontra
    · intro hcontra
      rcases hcontra with hnil | hall
      · rw [hnil] at hkmem
        exact absurd hkmem (List.not_mem_nil k)
      · rw [hall k hkmem] at hknb
        exact Bool.noConfusion hknb

theorem getCurrentKey_first_avail (mgr : Manager) (now : Nat) (i : Nat) (k : KeyStatus)
    (hget : mgr.keys.get? i = some k) (hok : keyOk now k = true)
    (hfirst : ∀ j, j < i → ∀ y, mgr.keys.get? j = some y → keyOk now y = false) :
    getCurrentKey mgr now = some (k.key, { mgr with currentIndex := i }) := by
  have hfind := jsFindIdx_first (keyOk now) mgr.keys i k hget hok hfirst
  unfold getCurrentKey
  simp only [hfind]

theorem getCurrentKey_soonest (mgr : Manager) (now : Nat)
    (hnone : ∀ k ∈ mgr.keys, keyOk now k = false) (s : String) (mgr' : Manager)
    (h : getCurrentKey mgr now = some (s, mgr')) :
    ∃ k ∈ mgr.keys, k.isBlocked = false ∧ s = k.key ∧
      ∀ k2 ∈ mgr.keys, k2.isBlocked = false → k.availableAt ≤ k2.availableAt := by
  have hfind : jsFindIdx (keyOk now) mgr.keys = none := (jsFindIdx_none_iff _ _).mpr hnone
  unfold getCurrentKey at h
  simp only [hfind] at h
  rcases hfilter : mgr.keys.filter (fun k => !k.isBlocked) with _ | ⟨k0, rest⟩
  · simp only [hfilter] at h
    exact Option.noConfusion h
  · simp only [hfilter] at h
    rcases hidx : jsIndexOf (reduceSoonest k0 rest) mgr.keys with _ | j
    · simp only [hidx] at h
      exact Option.noConfusion h
    · simp only [hidx, Option.some.injEq, Prod.mk.injEq] at h
      obtain ⟨hs, _⟩ := h
      have hsoonmem : reduceSoonest k0 rest ∈ mgr.keys.filter (fun k => !k.isBlocked) := by
        rw [hfilter]
        rcases reduceSoonest_mem k0 rest with hh | hh
        · rw [hh]
          exact List.mem_cons_self k0 rest
        · exact List.mem_cons_of_mem k0 hh
      have hmem : reduceSoonest k0 rest ∈ mgr.keys := List.mem_of_mem_filter hsoonmem
      have hnb : (reduceSoonest k0 rest).isBlocked = false := by
        have := (List.mem_filter.mp hsoonmem).2
        simpa using this
      refine ⟨reduceSoonest k0 rest, hmem, hnb, hs.symm, ?_⟩
      intro k2 hk2 hk2nb
      have hk2filter : k2 ∈ mgr.keys.filter (fun k => !k.isBlocked) := by
        refine List.mem_filter.mpr ⟨hk2, ?_⟩
        simp [hk2nb]
      rw [hfilter] at hk2filter
      obtain ⟨h1, h2⟩ := reduceSoonest_le k0 rest
      rcases List.mem_cons.mp hk2filter with rfl | hmem2
      · exact h1
      · exact h2 k2 hmem2

theorem rotateScan_found (keys : List KeyStatus) (now start : Nat) :
    ∀ rem i target k, i ≤ target → target < i + rem →
      keys.get? ((start + target) % keys.length) = some k → keyOk now k = true →
      (∀ j, i ≤ j → j < target → ∀ y,
        keys.get? ((start + j) % keys.length) = some y → keyOk now y = false) →
      rotateScan keys now start i rem = some ((start + target) % keys.length) := by
  intro rem
  induction rem with
  | zero =>
    intro i target k h1 h2 _ _ _
    omega
  | succ r ih =>
    intro i target k h1 h2 hget hok hfirst
    have hlen : 0 < keys.length := by
      by_contra hcon
      have : keys.length = 0 := by omega
      have : keys = [] := List.length_eq_zero.mp this
      rw [this] at hget
      simp at hget
    have hidxlt : (start + i) % keys.length < keys.length := Nat.mod_lt _ hlen
    obtain ⟨ki, hki⟩ : ∃ y, keys.get? ((start + i) % keys.length) = some y := by
      rw [List.get?_eq_get hidxlt]
      exact ⟨_, rfl⟩
    by_cases heq : i = target
    · subst heq
      have : ki = k := by
        rw [hki] at hget
        exact Option.some.inj hget
      subst this
      simp only [rotateScan, hki, if_pos hok]
    · have hlt : i < target := Nat.lt_of_le_of_ne h1 heq
      have hbad : keyOk now ki = false := hfirst i (Nat.le_refl i) hlt ki hki
      have hrec := ih (i + 1) target k (by omega) (by omega) hget hok
        (fun j hj1 hj2 y hy => hfirst j (by omega) hj2 y hy)
      simp only [rotateScan, hki, hbad, if_neg]
      exact hrec

theorem rotateScan_none (keys : List KeyStatus) (now start : Nat) :
    ∀ rem i,
      (∀ j, i ≤ j → j < i + rem → ∀ y,
        keys.get? ((start + j) % keys.length) = some y → keyOk now y = false) →
      rotateScan keys now start i rem = none := by
  intro rem
  induction rem with
  | zero =>
    intro i _
    rfl
  | succ r ih =>
    intro i hall
    rcases hgi : keys.get? ((start + i) % keys.length) with _ | y
    · simp only [rotateScan, hgi]
    · have hbad : keyOk now y = false := hall i (Nat.le_refl i) (by omega) y hgi
      have hrec := ih (i + 1) (fun j hj1 hj2 z hz => hall j (by omega) (by omega) z hz)
      simp only [rotateScan, hgi, hbad, if_neg]
      exact hrec

theorem rotate_forward (mgr : Manager) (now : Nat) (o : Nat) (k : KeyStatus)
    (ho1 : 1 ≤ o) (ho2 : o ≤ mgr.keys.length)
    (hget : mgr.keys.get? ((mgr.currentIndex + o) % mgr.keys.length) = some k)
    (hok : keyOk now k = true)
    (hfirst : ∀ j, 1 ≤ j → j < o → ∀ y,
      mgr.keys.get? ((mgr.currentIndex + j) % mgr.keys.length) = some y →
      keyOk now y = false) :
    rotateToNextKey mgr now =
      some (k.key, { mgr with currentIndex := (mgr.currentIndex + o) % mgr.keys.length }) := by
  have hscan := rotateScan_found mgr.keys now mgr.currentIndex mgr.keys.length 1 o k ho1
    (by omega) hget hok hfirst
  unfold rotateToNextKey
  simp only [hscan, hget]

theorem rotate_fallback (mgr : Manager) (now : Nat)
    (hall : ∀ j, 1 ≤ j → j ≤ mgr.keys.length → ∀ y,
      mgr.keys.get? ((mgr.currentIndex + j) % mgr.keys.length) = some y →
      keyOk now y = false)
    (k0 : KeyStatus) (hget0 : mgr.keys.get? mgr.currentIndex = some k0) :
    rotateToNextKey mgr now = some (k0.key, mgr) := by
  have hscan := rotateScan_none mgr.keys now mgr.currentIndex mgr.keys.length 1
    (fun j hj1 hj2 y hy => hall j hj1 (by omega) y hy)
  unfold rotateToNextKey
  simp only [hscan, hget0]

theorem markRateLimited_no_match (mgr : Manager) (now : Nat) (identity : String) (s : Nat)
    (h : ∀ k ∈ mgr.keys, substring20 k.key ≠ substring20 identity) :
    markRateLimited mgr now identity s = mgr := by
  have hfind : findIdxByKeyString mgr.keys identity = none := by
    unfold findIdxByKeyString
    refine (jsFindIdx_none_iff _ _).mpr ?_
    intro k hk
    exact decide_eq_false (h k hk)
  unfold markRateLimited
  simp only [hfind]

theorem markRateLimited_first_match (mgr : Manager) (now : Nat) (identity : String)
    (s : Nat) (i : Nat) (k : KeyStatus) (hget : mgr.keys.get? i = some k)
    (hpre : substring20 k.key = substring20 identity)
    (hfirst : ∀ j, j < i → ∀ y, mgr.keys.get? j = some y →
      substring20 y.key ≠ substring20 identity) :
    markRateLimited mgr now identity s =
      { mgr with
        keys := mgr.keys.set i ⟨k.key, now + s * 1000, k.isBlocked, k.errorCount + 1⟩ } := by
  have hfind : findIdxByKeyString mgr.keys identity = some (i, k) := by
    unfold findIdxByKeyString
    exact jsFindIdx_first _ _ i k hget (by simp [hpre])
      (fun j hj y hy => decide_eq_false (hfirst j hj y hy))
  unfold markRateLimited
  simp only [hfind]

theorem markRateLimited_earliest (mgr : Manager) (now : Nat) (identity : String)
    (s : Nat) (i : Nat) (k : KeyStatus) (hget : mgr.keys.get? i = some k)
    (hpre : substring20 k.key = substring20 identity) :
    ∃ f kf, f ≤ i ∧ mgr.keys.get? f = some kf ∧
      substring20 kf.key = substring20 identity ∧
      markRateLimited mgr now identity s =
        { mgr with
          keys := mgr.keys.set f ⟨kf.key, now + s * 1000, kf.isBlocked, kf.errorCount + 1⟩ } := by
  obtain ⟨f, kf, hfind, hle, hgetf, hp⟩ :=
    jsFindIdx_le_of_match (fun k => decide (substring20 k.key = substring20 identity))
      mgr.keys i k hget (by simp [hpre])
  refine ⟨f, kf, hle, hgetf, by simpa using hp, ?_⟩
  unfold markRateLimited findIdxByKeyString
  simp only [hfind]

theorem getSeconds_zero (mgr : Manager) (now : Nat)
    (h : ∀ k ∈ mgr.keys, k.isBlocked = false → k.availableAt ≤ now) :
    getSecondsUntilNextAvailable mgr now = 0 := by
  have hfilter :
      mgr.keys.filter (fun k => !k.isBlocked && decide (now < k.availableAt)) = [] := by
    refine List.filter_eq_nil_iff.mpr ?_
    intro k hk hcontra
    rcases (Bool.and_eq_true _ _).mp hcontra with ⟨h1, h2⟩
    have hnb : k.isBlocked = false := by simpa using h1
    have hfut : now < k.availableAt := by simpa using h2
    have := h k hk hnb
    omega
  unfold getSecondsUntilNextAvailable
  simp only [hfilter]

theorem getSeconds_min (mgr : Manager) (now : Nat) (m : KeyStatus)
    (hm : m ∈ mgr.keys) (hnb : m.isBlocked = false) (hfut : now < m.availableAt)
    (hmin : ∀ k ∈ mgr.keys, k.isBlocked = false → now < k.availableAt →
      m.availableAt ≤ k.availableAt) :
    getSecondsUntilNextAvailable mgr now = ceilDiv1000 (m.availableAt - now) := by
  have hmfilter : m ∈ mgr.keys.filter (fun k => !k.isBlocked && decide (now < k.availableAt)) := by
    refine List.mem_filter.mpr ⟨hm, ?_⟩
    simp [hnb, hfut]
  rcases hfilter : mgr.keys.filter (fun k => !k.isBlocked && decide (now < k.availableAt))
    with _ | ⟨k0, rest⟩
  · rw [hfilter] at hmfilter
    exact absurd hmfilter (List.not_mem_nil m)
  · have hsoonfilter : reduceSoonest k0 rest ∈
        mgr.keys.filter (fun k => !k.isBlocked && decide (now < k.availableAt)) := by
      rw [hfilter]
      rcases reduceSoonest_mem k0 rest with hh | hh
      · rw [hh]
        exact List.mem_cons_self k0 rest
      · exact List.mem_cons_of_mem k0 hh
    have hsoonmem : reduceSoonest k0 rest ∈ mgr.keys := List.mem_of_mem_filter hsoonfilter
    have hsoonprops := (List.mem_filter.mp hsoonfilter).2
    rcases (Bool.and_eq_true _ _).mp hsoonprops with ⟨hs1, hs2⟩
    have hsoonnb : (reduceSoonest k0 rest).isBlocked = false := by simpa using hs1
    have hsoonfut : now < (reduceSoonest k0 rest).availableAt := by simpa using hs2
    have hle1 : m.availableAt ≤ (reduceSoonest k0 rest).availableAt :=
      hmin (reduceSoonest k0 rest) hsoonmem hsoonnb hsoonfut
    have hle2 : (reduceSoonest k0 rest).availableAt ≤ m.availableAt := by
      obtain ⟨h1, h2⟩ := reduceSoonest_le k0 rest
      rw [hfilter] at hmfilter
      rcases List.mem_cons.mp hmfilter with rfl | hmem2
      · exact h1
      · exact h2 m hmem2
    have heq : (reduceSoonest k0 rest).availableAt = m.availableAt :=
      Nat.le_antisymm hle2 hle1
    unfold getSecondsUntilNextAvailable
    simp only [hfilter, heq]

theorem exec_nonRateLimit (work : Nat → String → Except RemoteErr Blob)
    (maxRetries : Nat) (mgr : Manager) (clock : Nat) (key : String) (mgr1 : Manager)
    (e : RemoteErr)
    (hkey : getCurrentKey mgr clock = some (key, mgr1))
    (hwork : work 0 key = .error e)
    (hother : (parseRateLimitError (.remote e)).isRateLimit = false) :
    generateSingleAudioExec work maxRetries mgr clock =
      ⟨.error (.remote e), 1, [], mgr1, clock⟩ := by
  unfold generateSingleAudioExec
  simp [execLoop, Nat.sub_self, hkey, hwork, hother]

theorem runAllLoop_length (work : Nat → Except JsErr Blob) (now : Nat) :
    ∀ ts i0 st, (runAllLoop work now ts i0 st).length = st.length := by
  intro ts
  induction ts with
  | nil =>
    intro i0 st
    rfl
  | cons t rest ih =>
    intro i0 st
    by_cases ht : jsTrim t = ""
    · simp only [runAllLoop, if_pos ht]
      exact ih (i0 + 1) st
    · simp only [runAllLoop, if_neg ht]
      rw [ih (i0 + 1) _]
      exact List.length_set ..

theorem runAllLoop_get_lt (work : Nat → Except JsErr Blob) (now : Nat) :
    ∀ ts i0 st j, j < i0 →
      (runAllLoop work now ts i0 st).get? j = st.get? j := by
  intro ts
  induction ts with
  | nil =>
    intro i0 st j _
    rfl
  | cons t rest ih =>
    intro i0 st j hj
    by_cases ht : jsTrim t = ""
    · simp only [runAllLoop, if_pos ht]
      exact ih (i0 + 1) st j (by omega)
    · simp only [runAllLoop, if_neg ht]
      rw [ih (i0 + 1) _ j (by omega)]
      exact listGet_set_other _ i0 j _ (by omega)

theorem runAllLoop_get_at (work : Nat → Except JsErr Blob) (now : Nat) :
    ∀ ts i0 st d t, st.length = i0 + ts.length → ts.get? d = some t →
      (runAllLoop work now ts i0 st).get? (i0 + d) =
        if jsTrim t = "" then st.get? (i0 + d)
        else some (some (outcomeClip (work (i0 + d)) now)) := by
  intro ts
  induction ts with
  | nil =>
    intro i0 st d t _ hget
    simp at hget
  | cons t0 rest ih =>
    intro i0 st d t hlen hget
    cases d with
    | zero =>
      have hteq : t0 = t := by simpa using hget
      subst hteq
      by_cases ht : jsTrim t0 = ""
      · simp only [runAllLoop, if_pos ht, Nat.add_zero]
        exact runAllLoop_get_lt work now rest (i0 + 1) st i0 (by omega)
      · simp only [runAllLoop, if_neg ht, Nat.add_zero]
        rw [runAllLoop_get_lt work now rest (i0 + 1) _ i0 (by omega)]
        exact listGet_set_same _ i0 _ (by simp at hlen; omega)
    | succ d2 =>
      have hget2 : rest.get? d2 = some t := hget
      by_cases ht0 : jsTrim t0 = ""
      · simp only [runAllLoop, if_pos ht0]
        have hrec := ih (i0 + 1) st d2 t (by simp at hlen ⊢; omega) hget2
        rw [show i0 + (d2 + 1) = (i0 + 1) + d2 by omega]
        exact hrec
      · simp only [runAllLoop, if_neg ht0]
        have hrec := ih (i0 + 1) (st.set i0 (some (outcomeClip (work i0) now))) d2 t
          (by rw [List.length_set]; simp at hlen ⊢; omega) hget2
        rw [show i0 + (d2 + 1) = (i0 + 1) + d2 by omega]
        rw [hrec]
        by_cases ht : jsTrim t = ""
        · rw [if_pos ht, if_pos ht]
          exact listGet_set_other _ i0 ((i0 + 1) + d2) _ (by omega)
        · rw [if_neg ht, if_neg ht]

theorem runAll_length (script : List String) (work : Nat → Except JsErr Blob) (now : Nat) :
    (handleGenerateAllAudioRun script work now).length = script.length := by
  unfold handleGenerateAllAudioRun
  rw [runAllLoop_length]
  unfold initialAudioData
  exact List.length_map ..

theorem runAll_get (script : List String) (work : Nat → Except JsErr Blob) (now : Nat)
    (i : Nat) (t : String) (hget : script.get? i = some t) :
    (handleGenerateAllAudioRun script work now).get? i =
      if jsTrim t = "" then some none
      else some (some (outcomeClip (work i) now)) := by
  unfold handleGenerateAllAudioRun
  have hlen : (initialAudioData script).length = 0 + script.length := by
    unfold initialAudioData
    simp
  have hmain := runAllLoop_get_at work now script 0 (initialAudioData script) i t hlen hget
  rw [Nat.zero_add] at hmain
  rw [hmain]
  by_cases ht : jsTrim t = ""
  · rw [if_pos ht, if_pos ht]
    unfold initialAudioData
    rw [List.get?_map, hget]
    simp [ht]
  · rw [if_neg ht, if_neg ht]

theorem runAll_indep (script : List String) (work work2 : Nat → Except JsErr Blob)
    (now : Nat) (i : Nat) (hw : work i = work2 i) :
    (handleGenerateAllAudioRun script work now).get? i =
      (handleGenerateAllAudioRun script work2 now).get? i := by
  by_cases hlt : i < script.length
  · obtain ⟨t, ht⟩ : ∃ t, script.get? i = some t := by
      rw [List.get?_eq_get hlt]
      exact ⟨_, rfl⟩
    rw [runAll_get script work now i t ht, runAll_get script work2 now i t ht, hw]
  · have h1 : (handleGenerateAllAudioRun script work now).get? i = none := by
      refine List.get?_eq_none.mpr ?_
      rw [runAll_length]
      omega
    have h2 : (handleGenerateAllAudioRun script work2 now).get? i = none := by
      refine List.get?_eq_none.mpr ?_
      rw [runAll_length]
      omega
    rw [h1, h2]

theorem retry_frame (script : List String) (st : List (Option AudioData)) (index : Nat)
    (work : Nat → Except JsErr Blob) (now : Nat) (j : Nat) (hj : j ≠ index) :
    (retryAudioClip script st index work now).get? j = st.get? j := by
  unfold retryAudioClip
  rcases hs : script.get? index with _ | t
  · simp only [hs]
  · simp only [hs]
    by_cases ht : jsTrim t = ""
    · rw [if_pos ht]
    · rw [if_neg ht]
      rw [listGet_set_other _ index j _ (fun hh => hj hh.symm)]
      exact listGet_set_other _ index j _ (fun hh => hj hh.symm)

theorem retry_at (script : List String) (st : List (Option AudioData)) (index : Nat)
    (work : Nat → Except JsErr Blob) (now : Nat) (t : String)
    (hs : script.get? index = some t) (ht : jsTrim t ≠ "") (hlt : index < st.length) :
    (retryAudioClip script st index work now).get? index =
      some (some (outcomeClip (work index) now)) := by
  unfold retryAudioClip
  simp only [hs, if_neg ht]
  exact listGet_set_same _ index _ (by rw [List.length_set]; exact hlt)

theorem markRateLimited_blocked_map (mgr : Manager) (now : Nat) (id2 : String) (s : Nat) :
    (markRateLimited mgr now id2 s).keys.map KeyStatus.isBlocked =
      mgr.keys.map KeyStatus.isBlocked := by
  unfold markRateLimited
  rcases hfind : findIdxByKeyString mgr.keys id2 with _ | ⟨i, k⟩
  · simp only [hfind]
  · simp only [hfind]
    rw [listMap_set]
    apply listSet_get_self
    have hget : mgr.keys.get? i = some k := by
      unfold findIdxByKeyString at hfind
      exact (jsFindIdx_some_spec _ _ _ _ hfind).1
    rw [List.get?_map, hget]
    rfl

theorem resetErrorCounts_blocked_map (mgr : Manager) :
    (resetErrorCounts mgr).keys.map KeyStatus.isBlocked =
      mgr.keys.map KeyStatus.isBlocked := by
  unfold resetErrorCounts
  rw [List.map_map]
  rfl

theorem markKeyInvalid_sets (mgr : Manager) (idx : Option Nat) (k : KeyStatus)
    (hget : mgr.keys.get? (idx.getD mgr.currentIndex) = some k) :
    markKeyInvalid mgr idx =
      { mgr with
        keys := mgr.keys.set (idx.getD mgr.currentIndex)
          ⟨k.key, k.availableAt, true, k.errorCount⟩ } := by
  unfold markKeyInvalid
  simp only [hget]

/-- Claim C1 (code-bug evidence): at useAudioGeneration.ts line 91 the executor calls
markRateLimited with the retry-seconds number in place of the credential identity
string, so on a rate-limit failure carrying a 30 second retry interval against a
two-key pool the run throws a TypeError after exactly one attempt: the failing
credential is never marked rate-limited (the pool is returned unchanged), and no
rotation and no sleep happens even though a second credential is available right
then, contradicting the claimed mark-rotate-or-wait behavior. -/
theorem rateLimit_mark_crash :
    (parseRateLimitError (.remote rateLimit30)).isRateLimit = true ∧
    (parseRateLimitError (.remote rateLimit30)).retryAfterSeconds = some 30 ∧
    generateSingleAudioExec (fun _ _ => Except.error rateLimit30) 2 poolTwoFresh 0 =
      ⟨.error (.typeError "keyString.substring is not a function"), 1, [],
        poolTwoFresh, 0⟩ ∧
    hasAvailableKey poolTwoFresh 0 = true := by
  decide

/-- Claim C2 (code-bug evidence): with maxRetries 2, a single-credential pool and a
work function that always fails with a rate limit carrying a 1 second retry interval,
the executor performs exactly 1 attempt (not 3) and fails with the TypeError raised
by the mis-called markRateLimited rather than a retries-exhausted error. -/
theorem retryBudget_crash :
    generateSingleAudioExec (fun _ _ => Except.error rateLimit1) 2 poolSingle 0 =
      ⟨.error (.typeError "keyString.substring is not a function"), 1, [],
        poolSingle, 0⟩ ∧
    ¬ (generateSingleAudioExec (fun _ _ => Except.error rateLimit1) 2 poolSingle 0).attempts
        = 3 := by
  decide

/-- Claim C3 counterexample: a 403 permission-denied failure does not make the
executor block the failing credential or continue to a further attempt: the run
propagates the failure after exactly one attempt and every blocked flag of the pool
is still false afterwards. -/
theorem invalidCredential_not_blocked :
    generateSingleAudioExec (fun _ _ => Except.error authRejection) 2 poolTwoFresh 0 =
      ⟨.error (.remote authRejection), 1, [], poolTwoFresh, 0⟩ ∧
    ((generateSingleAudioExec (fun _ _ => Except.error authRejection) 2 poolTwoFresh 0).mgr.keys.map
        KeyStatus.isBlocked) = [false, false] ∧
    (generateSingleAudioExec (fun _ _ => Except.error authRejection) 2 poolTwoFresh 0).attempts
      = 1 := by
  decide

/-- Claim C3 (amended): an authentication or authorization rejection (a structured
401 or 403 payload) is classified as a non-rate-limit failure (the classifier has no
invalid-credential category), and the executor propagates it immediately after one
attempt without blocking any credential; the pool operation markKeyInvalid, which
would set the permanent blocked flag, is never invoked by the executor, and neither
markRateLimited nor resetErrorCounts changes any blocked flag. -/
theorem auth_rejection_behavior (b : RpcErrorBody) (raw : String)
    (work : Nat → String → Except RemoteErr Blob) (maxRetries : Nat)
    (mgr : Manager) (clock : Nat) (key : String) (mgr1 : Manager)
    (hcode : b.code = some 403 ∨ b.code = some 401)
    (hkey : getCurrentKey mgr clock = some (key, mgr1))
    (hwork : work 0 key = .error (.rpc (some b) raw)) :
    (parseRateLimitError (.remote (.rpc (some b) raw))).isRateLimit = false ∧
    generateSingleAudioExec work maxRetries mgr clock =
      ⟨.error (.remote (.rpc (some b) raw)), 1, [], mgr1, clock⟩ ∧
    mgr1.keys = mgr.keys ∧
    (∀ idx k, mgr.keys.get? (idx.getD mgr.currentIndex) = some k →
      markKeyInvalid mgr idx =
        { mgr with
          keys := mgr.keys.set (idx.getD mgr.currentIndex)
            ⟨k.key, k.availableAt, true, k.errorCount⟩ }) ∧
    (∀ now2 id2 s2, (markRateLimited mgr now2 id2 s2).keys.map KeyStatus.isBlocked =
      mgr.keys.map KeyStatus.isBlocked) ∧
    (resetErrorCounts mgr).keys.map KeyStatus.isBlocked =
      mgr.keys.map KeyStatus.isBlocked := by
  have hother : (parseRateLimitError (.remote (.rpc (some b) raw))).isRateLimit = false := by
    have hne : ¬ b.code = some 429 := by
      rcases hcode with h | h <;> simp [h]
    simp [parseRateLimitError, hne]
  refine ⟨hother, ?_, ?_, ?_, ?_, ?_⟩
  · exact exec_nonRateLimit work maxRetries mgr clock key mgr1 _ hkey hwork hother
  · exact getCurrentKey_keys_eq mgr clock key mgr1 hkey
  · exact fun idx k hget => markKeyInvalid_sets mgr idx k hget
  · exact fun now2 id2 s2 => markRateLimited_blocked_map mgr now2 id2 s2
  · exact resetErrorCounts_blocked_map mgr

/-- Witness for the amended claim C3 at a concrete pool and failure. -/
theorem auth_rejection_behavior_witness :
    generateSingleAudioExec (fun _ _ => Except.error authRejection) 2 poolTwoFresh 0 =
      ⟨.error (.remote authRejection), 1, [], poolTwoFresh, 0⟩ ∧
    (markRateLimited poolTwoFresh 9 "zz" 3).keys.map KeyStatus.isBlocked =
      poolTwoFresh.keys.map KeyStatus.isBlocked := by
  have h := auth_rejection_behavior
    ⟨some 403, some "The caller does not have permission", none⟩ "raw403"
    (fun _ _ => Except.error authRejection) 2 poolTwoFresh 0
    "AKEY-aaaaaaaaaaaaaaaaaaaaaaaa" poolTwoFresh (Or.inl rfl) (by decide) rfl
  exact ⟨h.2.1, h.2.2.2.2.1 9 "zz" 3⟩

/-- Claim C4: selectAvailable (getCurrentKey) returns the secret of the first
credential in stable configured order with blocked false and availableAt at or
before now; if none qualifies it returns a non-blocked credential of smallest
availableAt; and it fails (the modeled TypeError, value none) exactly when the pool
is empty or every credential is blocked. -/
theorem selectAvailable_spec (mgr : Manager) (now : Nat) :
    (getCurrentKey mgr now = none ↔
      (mgr.keys = [] ∨ ∀ k ∈ mgr.keys, k.isBlocked = true)) ∧
    (∀ i k, mgr.keys.get? i = some k → keyOk now k = true →
      (∀ j, j < i → ∀ y, mgr.keys.get? j = some y → keyOk now y = false) →
      getCurrentKey mgr now = some (k.key, { mgr with currentIndex := i })) ∧
    ((∀ k ∈ mgr.keys, keyOk now k = false) → ∀ s mgr2,
      getCurrentKey mgr now = some (s, mgr2) →
      ∃ k ∈ mgr.keys, k.isBlocked = false ∧ s = k.key ∧
        ∀ k2 ∈ mgr.keys, k2.isBlocked = false → k.availableAt ≤ k2.availableAt) :=
  ⟨getCurrentKey_none_iff mgr now,
   fun i k h1 h2 h3 => getCurrentKey_first_avail mgr now i k h1 h2 h3,
   fun hn s mgr2 h => getCurrentKey_soonest mgr now hn s mgr2 h⟩

/-- Witness for claim C4: in the 3-key pool whose key 0 is rate limited until
t = 31000, selection at t = 1000 returns key 1, never key 0. -/
theorem selectAvailable_spec_witness :
    getCurrentKey poolRotation 1000 =
      some ("KEY1-yyyyyyyyyyyyyyyyyyyy", { poolRotation with currentIndex := 1 }) :=
  (selectAvailable_spec poolRotation 1000).2.1 1 ⟨"KEY1-yyyyyyyyyyyyyyyyyyyy", 0, false, 0⟩
    (by decide) (by decide)
    (fun j hj y hy => by
      have hj0 : j = 0 := by omega
      subst hj0
      have hy0 : some (⟨"KEY0-zzzzzzzzzzzzzzzzzzzz", 31000, false, 1⟩ : KeyStatus) = some y := by
        rw [← hy]
        rfl
      rw [← Option.some.inj hy0]
      decide)

/-- Claim C5: a batch run gives every item with non-blank text a final record that is
exactly the outcome of its own work function (succeeded or failed), leaves blank
items with no record at all, and an item final state depends only on its own work
outcome, so a failure in one item never disturbs the others; retryAudioClip rewrites
exactly the one targeted index and leaves every other index unchanged. -/
theorem batch_independence (script : List String) (work work2 : Nat → Except JsErr Blob)
    (now : Nat) :
    (handleGenerateAllAudioRun script work now).length = script.length ∧
    (∀ i t, script.get? i = some t → jsTrim t = "" →
      (handleGenerateAllAudioRun script work now).get? i = some none) ∧
    (∀ i t, script.get? i = some t → jsTrim t ≠ "" →
      (handleGenerateAllAudioRun script work now).get? i =
        some (some (outcomeClip (work i) now))) ∧
    (∀ i, work i = work2 i →
      (handleGenerateAllAudioRun script work now).get? i =
        (handleGenerateAllAudioRun script work2 now).get? i) ∧
    (∀ st index j, j ≠ index →
      (retryAudioClip script st index work now).get? j = st.get? j) ∧
    (∀ st index t, script.get? index = some t → jsTrim t ≠ "" → index < st.length →
      (retryAudioClip script st index work now).get? index =
        some (some (outcomeClip (work index) now))) := by
  refine ⟨runAll_length script work now, ?_, ?_, ?_, ?_, ?_⟩
  · intro i t hget ht
    rw [runAll_get script work now i t hget, if_pos ht]
  · intro i t hget ht
    rw [runAll_get script work now i t hget, if_neg ht]
  · intro i hw
    exact runAll_indep script work work2 now i hw
  · intro st index j hj
    exact retry_frame script st index work now j hj
  · intro st index t hs ht hlt
    exact retry_at script st index work now t hs ht hlt

/-- Witness for claim C5: a 3-item batch with a blank middle item where item 2 always
fails ends with item 0 succeeded, item 1 having no record, item 2 failed; retrying
item 2 with a now-succeeding work function rewrites only index 2. -/
theorem batch_independence_witness :
    (handleGenerateAllAudioRun ["hello", "  ", "world"]
        (fun i => if i = 2 then Except.error (JsErr.remote (RemoteErr.plainMessage "boom"))
          else Except.ok 7) 0).get? 0 =
      some (some (succeededClip 7)) ∧
    (handleGenerateAllAudioRun ["hello", "  ", "world"]
        (fun i => if i = 2 then Except.error (JsErr.remote (RemoteErr.plainMessage "boom"))
          else Except.ok 7) 0).get? 1 = some none ∧
    (handleGenerateAllAudioRun ["hello", "  ", "world"]
        (fun i => if i = 2 then Except.error (JsErr.remote (RemoteErr.plainMessage "boom"))
          else Except.ok 7) 0).get? 2 =
      some (some (failedClip (JsErr.remote (RemoteErr.plainMessage "boom")) 0)) ∧
    (retryAudioClip ["hello", "  ", "world"]
        [some (succeededClip 7), none,
          some (failedClip (JsErr.remote (RemoteErr.plainMessage "boom")) 0)] 2
        (fun _ => Except.ok 9) 0).get? 0 = some (some (succeededClip 7)) ∧
    (retryAudioClip ["hello", "  ", "world"]
        [some (succeededClip 7), none,
          some (failedClip (JsErr.remote (RemoteErr.plainMessage "boom")) 0)] 2
        (fun _ => Except.ok 9) 0).get? 2 = some (some (succeededClip 9)) := by
  have h := batch_independence ["hello", "  ", "world"]
    (fun i => if i = 2 then Except.error (JsErr.remote (RemoteErr.plainMessage "boom"))
      else Except.ok 7)
    (fun i => if i = 2 then Except.error (JsErr.remote (RemoteErr.plainMessage "boom"))
      else Except.ok 7) 0
  have h2 := batch_independence ["hello", "  ", "world"] (fun _ => Except.ok 9)
    (fun _ => Except.ok 9) 0
  refine ⟨h.2.2.1 0 "hello" rfl (by decide), h.2.1 1 "  " rfl (by decide),
    h.2.2.1 2 "world" rfl (by decide), h2.2.2.2.2.1 _ 2 0 (by decide),
    h2.2.2.2.2.2 _ 2 "world" rfl (by decide) (by decide)⟩

/-- Claim C6: rotateToNextKey scans forward cyclically starting at the index after
the current one, returns the first non-blocked credential with availableAt at or
before now, and after a fruitless full cycle returns the credential at the current
index with the manager unchanged; over keys A (blocked), B, C it rotates 0 to B,
1 to C, and 2 wraps past A to B. -/
theorem rotate_spec (mgr : Manager) (now : Nat) :
    (∀ o k, 1 ≤ o → o ≤ mgr.keys.length →
      mgr.keys.get? ((mgr.currentIndex + o) % mgr.keys.length) = some k →
      keyOk now k = true →
      (∀ j, 1 ≤ j → j < o → ∀ y,
        mgr.keys.get? ((mgr.currentIndex + j) % mgr.keys.length) = some y →
        keyOk now y = false) →
      rotateToNextKey mgr now =
        some (k.key,
          { mgr with currentIndex := (mgr.currentIndex + o) % mgr.keys.length })) ∧
    ((∀ j, 1 ≤ j → j ≤ mgr.keys.length → ∀ y,
        mgr.keys.get? ((mgr.currentIndex + j) % mgr.keys.length) = some y →
        keyOk now y = false) →
      ∀ k0, mgr.keys.get? mgr.currentIndex = some k0 →
      rotateToNextKey mgr now = some (k0.key, mgr)) ∧
    rotateToNextKey (abcPool 0) 5 = some (keyB.key, abcPool 1) ∧
    rotateToNextKey (abcPool 1) 5 = some (keyC.key, abcPool 2) ∧
    rotateToNextKey (abcPool 2) 5 = some (keyB.key, abcPool 1) :=
  ⟨fun o k h1 h2 h3 h4 h5 => rotate_forward mgr now o k h1 h2 h3 h4 h5,
   fun h k0 h0 => rotate_fallback mgr now h k0 h0,
   by decide, by decide, by decide⟩

/-- Witness for claim C6: rotating the two-fresh-key pool from index 0 selects the
key at offset one. -/
theorem rotate_spec_witness :
    rotateToNextKey poolTwoFresh 0 =
      some ("BKEY-bbbbbbbbbbbbbbbbbbbbbbbb", { poolTwoFresh with currentIndex := 1 }) :=
  (rotate_spec poolTwoFresh 0).1 1 ⟨"BKEY-bbbbbbbbbbbbbbbbbbbbbbbb", 0, false, 0⟩
    (by decide) (by decide) (by decide) (by decide)
    (fun j hj1 hj2 y hy => absurd hj2 (by omega))

/-- Claim C7: markRateLimited locates the credential by equality of the fixed-length
20-character prefixes of the stored secret and the supplied identity (so a truncated
identity still matches while the prefixes agree), sets that credential availableAt to
now plus the retry seconds (milliseconds internally) and increments its errorCount;
with no match it returns the pool unchanged, and being a total function it never
throws. -/
theorem markRateLimited_spec (mgr : Manager) (now : Nat) (identity : String) (s : Nat) :
    ((∀ k ∈ mgr.keys, substring20 k.key ≠ substring20 identity) →
      markRateLimited mgr now identity s = mgr) ∧
    (∀ i k, mgr.keys.get? i = some k → substring20 k.key = substring20 identity →
      (∀ j, j < i → ∀ y, mgr.keys.get? j = some y →
        substring20 y.key ≠ substring20 identity) →
      markRateLimited mgr now identity s =
        { mgr with
          keys := mgr.keys.set i
            ⟨k.key, now + s * 1000, k.isBlocked, k.errorCount + 1⟩ }) :=
  ⟨markRateLimited_no_match mgr now identity s,
   fun i k h1 h2 h3 => markRateLimited_first_match mgr now identity s i k h1 h2 h3⟩

/-- Witness for claim C7: an identity truncated to 25 of the 35 secret characters
still marks the key, setting availableAt to 2000 + 30000 and errorCount to 1. -/
theorem markRateLimited_spec_witness :
    markRateLimited poolLongKey 2000 "LONGKEY-0123456789ab-tail" 30 =
      { poolLongKey with
        keys := poolLongKey.keys.set 0
          ⟨"LONGKEY-0123456789ab-tail-of-secret", 2000 + 30 * 1000, false, 0 + 1⟩ } :=
  (markRateLimited_spec poolLongKey 2000 "LONGKEY-0123456789ab-tail" 30).2 0
    ⟨"LONGKEY-0123456789ab-tail-of-secret", 0, false, 0⟩ (by decide) (by decide)
    (fun j hj y hy => absurd hj (by omega))

/-- Claim C8 counterexample: in the pool with one immediately usable key and one key
cooling down until t = 6000, at t = 1000 a credential is immediately usable yet
getSecondsUntilNextAvailable returns 5, not 0, refuting the claim that it returns 0
whenever some credential is immediately usable. -/
theorem secondsUntilNext_counterexample :
    hasAvailableKey poolMixed 1000 = true ∧
    getSecondsUntilNextAvailable poolMixed 1000 = 5 ∧
    ¬ getSecondsUntilNextAvailable poolMixed 1000 = 0 := by
  decide

/-- Claim C8 (amended): getSecondsUntilNextAvailable returns 0 when no non-blocked
credential has availableAt strictly after now, and otherwise returns the ceiling in
seconds of the minimum remaining wait among non-blocked credentials whose availableAt
is in the future, regardless of whether some other credential is immediately
usable. -/
theorem secondsUntilNext_spec (mgr : Manager) (now : Nat) :
    ((∀ k ∈ mgr.keys, k.isBlocked = false → k.availableAt ≤ now) →
      getSecondsUntilNextAvailable mgr now = 0) ∧
    (∀ m, m ∈ mgr.keys → m.isBlocked = false → now < m.availableAt →
      (∀ k ∈ mgr.keys, k.isBlocked = false → now < k.availableAt →
        m.availableAt ≤ k.availableAt) →
      getSecondsUntilNextAvailable mgr now = ceilDiv1000 (m.availableAt - now)) :=
  ⟨getSeconds_zero mgr now, fun m h1 h2 h3 h4 => getSeconds_min mgr now m h1 h2 h3 h4⟩

/-- Witness for the amended claim C8 on the mixed pool at t = 1000. -/
theorem secondsUntilNext_spec_witness :
    getSecondsUntilNextAvailable poolMixed 1000 = ceilDiv1000 (6000 - 1000) :=
  (secondsUntilNext_spec poolMixed 1000).2 ⟨"BKEY-cooling-bbbbbbbb", 6000, false, 0⟩
    (by decide) rfl (by decide) (by decide)

/-- Claim C9: a failure classified as non-rate-limit (Other) makes the executor fail
on that attempt, propagating the failure unchanged with no further retry regardless
of maxRetries; occurring on the first attempt it yields exactly one attempt, no
sleeps, and an unchanged pool apart from the currentIndex selection. -/
theorem other_short_circuit (work : Nat → String → Except RemoteErr Blob)
    (maxRetries : Nat) (mgr : Manager) (clock : Nat) (key : String) (mgr1 : Manager)
    (e : RemoteErr)
    (hkey : getCurrentKey mgr clock = some (key, mgr1))
    (hwork : work 0 key = .error e)
    (hother : (parseRateLimitError (.remote e)).isRateLimit = false) :
    generateSingleAudioExec work maxRetries mgr clock =
      ⟨.error (.remote e), 1, [], mgr1, clock⟩ ∧
    (generateSingleAudioExec work maxRetries mgr clock).attempts = 1 := by
  have h := exec_nonRateLimit work maxRetries mgr clock key mgr1 e hkey hwork hother
  exact ⟨h, by rw [h]⟩

/-- Witness for claim C9: a plain failure message against the single-key pool with
maxRetries 5 is propagated as-is after exactly one attempt. -/
theorem other_short_circuit_witness :
    generateSingleAudioExec (fun _ _ => Except.error (RemoteErr.plainMessage "boom")) 5
        poolSingle 0 =
      ⟨.error (.remote (.plainMessage "boom")), 1, [], poolSingle, 0⟩ :=
  (other_short_circuit (fun _ _ => Except.error (RemoteErr.plainMessage "boom")) 5
    poolSingle 0 "SKEY-ssssssssssssssssssssssss" poolSingle (RemoteErr.plainMessage "boom")
    (by decide) rfl (by decide)).1

/-- Claim C10: when two distinct credentials share the first 20 characters of their
secrets, markRateLimited with an identity agreeing on those 20 characters updates the
first matching credential in pool order (an index at or before the earlier one) and
leaves the later credential record unchanged. -/
theorem markRateLimited_shared20 (mgr : Manager) (now : Nat) (identity : String)
    (s : Nat) (i j : Nat) (ki kj : KeyStatus)
    (hi : mgr.keys.get? i = some ki) (hj : mgr.keys.get? j = some kj) (hij : i < j)
    (hdup : substring20 ki.key = substring20 kj.key)
    (hid : substring20 identity = substring20 ki.key) :
    ∃ f kf, f ≤ i ∧ mgr.keys.get? f = some kf ∧
      substring20 kf.key = substring20 identity ∧
      markRateLimited mgr now identity s =
        { mgr with
          keys := mgr.keys.set f
            ⟨kf.key, now + s * 1000, kf.isBlocked, kf.errorCount + 1⟩ } ∧
      (markRateLimited mgr now identity s).keys.get? j = some kj := by
  obtain ⟨f, kf, hle, hgetf, hpre, heq⟩ :=
    markRateLimited_earliest mgr now identity s i ki hi hid.symm
  refine ⟨f, kf, hle, hgetf, hpre, heq, ?_⟩
  rw [heq]
  show (mgr.keys.set f _).get? j = some kj
  rw [listGet_set_other _ f j _ (by omega)]
  exact hj

/-- Witness for claim C10 on the two prefix-sharing keys: the identity equal to the
first secret cools down index 0 while the record at index 1 is untouched. -/
theorem markRateLimited_shared20_witness :
    (markRateLimited poolDup 1000 "SHARED-PREFIX-0123456-first" 7).keys.get? 1 =
      some dupKey2 ∧
    substring20 dupKey1.key = substring20 dupKey2.key ∧
    ¬ dupKey1.key = dupKey2.key := by
  refine ⟨?_, by decide, by decide⟩
  obtain ⟨f, kf, hle, hgetf, hpre, heq, hjj⟩ :=
    markRateLimited_shared20 poolDup 1000 "SHARED-PREFIX-0123456-first" 7 0 1
      dupKey1 dupKey2 (by decide) (by decide) (by decide) (by decide) (by decide)
  exact hjj
